import Mathlib

/-!
# Verification of the cursor-flow execution core

A shallow embedding of the stream-extraction, retry/resume control loop,
semantic-judgement and task-queue code of the cursor-flow repository
(`cursor-agent-task.js`, `cursor-tasks.js`), together with theorems settling
the specification claims about them.

JS strings are modelled as `List Char`; JS objects become structures;
promise rejection becomes an explicit `exn` outcome; the event loop that
feeds the stream filter becomes a fold over the decoded events.
-/

namespace CursorFlow

/-- JS strings, modelled as lists of characters. -/
abbrev Str := List Char

/-- A Lean string literal, viewed in the character-list model. -/
def strL (s : String) : Str := s.data

/-- JS `String.prototype.trim`: strip leading and trailing whitespace. -/
def jsTrim (s : Str) : Str :=
  ((s.dropWhile Char.isWhitespace).reverse.dropWhile Char.isWhitespace).reverse

/-!
## Stream extractor: the cumulative-text diff

`cursor-agent-task.js`, `pipeThroughAssistantFilter` (lines 1932-2052):
each decoded assistant event carries the *cumulative* text so far; the filter
diffs it against the recorded `lastAssistantOutput` and emits only the new
part.
-/

/-- One step of the cumulative diff of `pipeThroughAssistantFilter` against
its `lastAssistantOutput` record (lines 1934-2052 of
`cursor-agent-task.js`).  Returns the emitted fragment and the new value of
the record:
* the new text starts with the record → emit the suffix, record the new text
  (when the suffix is empty, i.e. the texts are equal, nothing is emitted and
  the record is left as it was, line 2052);
* otherwise (the new text differs and does not extend the record) → emit the
  new text in full and record it (lines 2022-2049). -/
def assistantDiffStep (last text : Str) : Str × Str :=
  if last.isPrefixOf text then
    let newPart := text.drop last.length
    if newPart.length > 0 then (newPart, text) else ([], last)
  else if text ≠ last then (text, text)
  else ([], last)

/-- Feeding a sequence of candidate assistant texts through the diff, starting
from the empty record, collecting the concatenation of everything emitted
together with the final record. -/
def runAssistantDiff (texts : List Str) : Str × Str :=
  texts.foldl
    (fun acc t =>
      let step := assistantDiffStep acc.2 t
      (acc.1 ++ step.1, step.2))
    ([], [])

/-- `List.isPrefixOf` agrees with the existential description of a prefix. -/
theorem prefixOf_iff {l₁ l₂ : Str} :
    l₁.isPrefixOf l₂ = true ↔ ∃ t, l₂ = l₁ ++ t := by
  rw [ List.isPrefixOf_iff_prefix]
  constructor
  · rintro ⟨t, rfl⟩
    exact ⟨t, rfl⟩
  · rintro ⟨t, rfl⟩
    exact ⟨t, rfl⟩

/-- On a prefix-extension the diff step emits exactly the suffix beyond the
record. -/
theorem assistantDiffStep_of_extends (last text : Str)
    (h : last.isPrefixOf text = true) :
    assistantDiffStep last text = (text.drop last.length, text) := by
  rcases prefixOf_iff.mp h with ⟨t, rfl⟩
  unfold assistantDiffStep
  rw [if_pos h]
  simp only [List.drop_left]
  by_cases ht : t = []
  · subst ht
    simp
  · have : 0 < t.length := List.length_pos.mpr ht
    simp [this]

/-- `isPrefixOf` is reflexive. -/
theorem prefixOf_refl (a : Str) : a.isPrefixOf a = true :=
  prefixOf_iff.mpr ⟨[], by simp⟩

/-- `isPrefixOf` is transitive. -/
theorem prefixOf_trans {a b c : Str} (h₁ : a.isPrefixOf b = true)
    (h₂ : b.isPrefixOf c = true) : a.isPrefixOf c = true := by
  rcases prefixOf_iff.mp h₁ with ⟨u, rfl⟩
  rcases prefixOf_iff.mp h₂ with ⟨v, rfl⟩
  exact prefixOf_iff.mpr ⟨u ++ v, by simp⟩

/-- On a non-extension the diff step emits the full new text and replaces the
record. -/
theorem assistantDiffStep_of_not_extends (last text : Str)
    (h : last.isPrefixOf text = false) :
    assistantDiffStep last text = (text, text) := by
  have hne : text ≠ last := by
    rintro rfl
    rw [prefixOf_refl text] at h
    cases h
  unfold assistantDiffStep
  rw [if_neg (by simp [h]), if_pos hne]

/-- An exact re-transmission emits nothing and keeps the record. -/
theorem assistantDiffStep_self (t : Str) : assistantDiffStep t t = ([], t) := by
  unfold assistantDiffStep
  rw [if_pos (prefixOf_refl t)]
  simp

/-- The head of a prefix-extension chain is a prefix of its last element. -/
theorem chain_head_prefixOf_getLast :
    ∀ (ts : List Str) (a : Str),
      List.Chain (fun x y => x.isPrefixOf y = true) a ts →
      a.isPrefixOf ((a :: ts).getLast (List.cons_ne_nil _ _)) = true := by
  intro ts
  induction ts with
  | nil =>
    intro a _
    simp [prefixOf_refl a]
  | cons s ss ih =>
    intro a hchain
    rcases hchain with _ | ⟨has, hchain⟩
    rw [List.getLast_cons (List.cons_ne_nil _ _)]
    exact prefixOf_trans has (ih s hchain)

/-- Generalised chain lemma for the diff fold: starting from record `l` and
already-emitted text `acc`, folding a chain of prefix-extensions appends
exactly the part of the final text beyond `l`. -/
theorem foldDiff_chain (texts : List Str) :
    ∀ (l acc : Str),
      List.Chain (fun a b => a.isPrefixOf b = true) l texts →
      texts.foldl
        (fun acc t =>
          let step := assistantDiffStep acc.2 t
          (acc.1 ++ step.1, step.2)) (acc, l) =
      (acc ++ ((l :: texts).getLast (List.cons_ne_nil _ _)).drop l.length,
        (l :: texts).getLast (List.cons_ne_nil _ _)) := by
  induction texts with
  | nil =>
    intro l acc _
    simp
  | cons t ts ih =>
    intro l acc hchain
    rcases hchain with _ | ⟨hlt, hchain⟩
    rcases prefixOf_iff.mp hlt with ⟨u, rfl⟩
    have hstep := assistantDiffStep_of_extends l (l ++ u) hlt
    have hlast : ((l :: (l ++ u) :: ts).getLast (List.cons_ne_nil _ _)) =
        (((l ++ u) :: ts).getLast (List.cons_ne_nil _ _)) := by
      rw [List.getLast_cons]
    rw [List.foldl_cons]
    simp only [hstep]
    rw [ih (l ++ u) (acc ++ (l ++ u).drop l.length) hchain, hlast]
    have hpre : (l ++ u).isPrefixOf (((l ++ u) :: ts).getLast
        (List.cons_ne_nil _ _)) = true :=
      chain_head_prefixOf_getLast ts (l ++ u) hchain
    rcases prefixOf_iff.mp hpre with ⟨w, hw⟩
    rw [hw]
    simp

/-- For a prefix-extending chain the fold emits exactly the final text and
records it. -/
theorem runAssistantDiff_chain (texts : List Str) (h : texts ≠ [])
    (hchain : List.Chain' (fun a b => a.isPrefixOf b = true) texts) :
    runAssistantDiff texts = (texts.getLast h, texts.getLast h) := by
  match texts, h with
  | t :: ts, _ =>
    have hchain' : List.Chain (fun a b => a.isPrefixOf b = true) ([] : Str)
        (t :: ts) := by
      refine List.Chain.cons ?_ hchain
      exact prefixOf_iff.mpr ⟨t, by simp⟩
    have := foldDiff_chain (t :: ts) [] [] hchain'
    unfold runAssistantDiff
    rw [this]
    rw [List.getLast_cons (List.cons_ne_nil _ _)]
    simp

/-- C1.  Per-event cumulative diff of `pipeThroughAssistantFilter` against its
`lastAssistantOutput` record: on a prefix-extension exactly the suffix beyond
the record is emitted and the record becomes the new text; on an exact repeat
nothing is emitted; on a non-extension the new text is emitted in full and
recorded.  Consequently, for any prefix-extending chain T1, ..., Tn the
concatenation of all emissions equals Tn, and an exact repeat of Tn after Tn
emits nothing more. -/
theorem claim_C1_delta_extraction :
    (∀ last text : Str, last.isPrefixOf text = true →
        assistantDiffStep last text = (text.drop last.length, text)) ∧
    (∀ t : Str, assistantDiffStep t t = ([], t)) ∧
    (∀ last text : Str, last.isPrefixOf text = false →
        assistantDiffStep last text = (text, text)) ∧
    (∀ (texts : List Str) (h : texts ≠ []),
        List.Chain' (fun a b => a.isPrefixOf b = true) texts →
        (runAssistantDiff texts).1 = texts.getLast h ∧
        (runAssistantDiff (texts ++ [texts.getLast h])).1 =
          (runAssistantDiff texts).1) := by
  refine ⟨assistantDiffStep_of_extends, assistantDiffStep_self,
    assistantDiffStep_of_not_extends, ?_⟩
  intro texts h hchain
  have hrun := runAssistantDiff_chain texts h hchain
  refine ⟨by rw [hrun], ?_⟩
  unfold runAssistantDiff
  rw [List.foldl_append]
  have : runAssistantDiff texts = texts.foldl
      (fun acc t =>
        let step := assistantDiffStep acc.2 t
        (acc.1 ++ step.1, step.2)) ([], []) := rfl
  rw [← this, hrun]
  simp [assistantDiffStep_self]

/-- Witness for C1 at a concrete chain. -/
theorem claim_C1_delta_extraction_witness :
    (runAssistantDiff [strL "a", strL "ab", strL "abc"]).1 =
        [strL "a", strL "ab", strL "abc"].getLast (by decide) ∧
    (runAssistantDiff ([strL "a", strL "ab", strL "abc"] ++
        [[strL "a", strL "ab", strL "abc"].getLast (by decide)])).1 =
      (runAssistantDiff [strL "a", strL "ab", strL "abc"]).1 :=
  claim_C1_delta_extraction.2.2.2 [strL "a", strL "ab", strL "abc"]
    (by decide)
    (List.Chain.cons (by decide) (List.Chain.cons (by decide) List.Chain.nil))

/-!
## Stream extractor: the known-user-prompt filter

`cursor-agent-task.js`, `pipeThroughAssistantFilter` (lines 1896-1910): before
the cumulative diff, extracted assistant text is checked against every
previously observed user prompt (`knownUserPrompts`, populated in insertion
order at line 1765); any prompt whose trimmed text is a prefix of the trimmed
assistant text is stripped from the front, and when nothing remains the loop
breaks and the event is dropped.
-/

/-- The known-user-prompt filter of `pipeThroughAssistantFilter`
(lines 1896-1910).  `prompts` is the insertion-ordered content of
`knownUserPrompts`; the result is the assistant text after stripping, `[]`
meaning the event is dropped (lines 1903-1907 set the text to the empty
string and break, and line 1912 then skips it). -/
def stripKnownPrompts : List Str → Str → Str
  | [], text => text
  | p :: rest, text =>
    if p ≠ [] ∧ (jsTrim p).isPrefixOf (jsTrim text) = true then
      let t := jsTrim ((jsTrim text).drop (jsTrim p).length)
      if t = [] then [] else stripKnownPrompts rest t
    else stripKnownPrompts rest text

/-- C7 counterexample: the filter is a trimmed-prefix strip, not an exact-echo
drop.  With observed prompts "h" then "hi", the assistant text "hi" — an
exact byte-for-byte echo of the observed prompt "hi" — is *not* filtered out
(the earlier prompt "h" strips it to "i", which is emitted); and the
non-echo text "hi there" is partially removed (its "hi" prefix is stripped)
even though it is not an echo of any observed prompt. -/
theorem claim_C7_counterexample :
    stripKnownPrompts [strL "h", strL "hi"] (strL "hi") = strL "i" ∧
    strL "hi" ∈ [strL "h", strL "hi"] ∧
    stripKnownPrompts [strL "hi"] (strL "hi there") = strL "there" ∧
    strL "hi there" ∉ [strL "hi"] ∧
    strL "there" ≠ strL "hi there" := by
  decide

/-- C7 amended.  The filter strips, in observation order, every non-empty
known prompt whose trimmed text is a prefix of the trimmed assistant text,
and drops the event only when the remainder becomes empty: (1) text whose
trimmed form equals a sole observed prompt's trimmed form (in particular an
exact echo of that prompt) is dropped entirely; (2) text in which no observed
prompt occurs as a trimmed prefix is left unchanged; (3) text that merely
starts with the sole observed prompt has that prefix stripped rather than
being kept intact. -/
theorem claim_C7_prompt_filter_amended :
    (∀ p text : Str, p ≠ [] → jsTrim text = jsTrim p →
        stripKnownPrompts [p] text = []) ∧
    (∀ (prompts : List Str) (text : Str),
        (∀ p ∈ prompts, p = [] ∨ (jsTrim p).isPrefixOf (jsTrim text) = false) →
        stripKnownPrompts prompts text = text) ∧
    (∀ p text : Str, p ≠ [] → (jsTrim p).isPrefixOf (jsTrim text) = true →
        jsTrim ((jsTrim text).drop (jsTrim p).length) ≠ [] →
        stripKnownPrompts [p] text =
          jsTrim ((jsTrim text).drop (jsTrim p).length)) := by
  refine ⟨?_, ?_, ?_⟩
  · intro p text hp htrim
    unfold stripKnownPrompts
    rw [htrim]
    rw [if_pos ⟨hp, prefixOf_refl _⟩]
    have hdrop : (jsTrim p).drop (jsTrim p).length = ([] : Str) :=
      List.drop_length _
    rw [hdrop]
    have hnil : jsTrim ([] : Str) = [] := rfl
    rw [hnil]
    simp
  · intro prompts
    induction prompts with
    | nil =>
      intro text _
      rfl
    | cons p rest ih =>
      intro text hall
      unfold stripKnownPrompts
      rcases hall p (by simp) with hp | hpre
      · rw [if_neg (by simp [hp])]
        exact ih text fun q hq => hall q (by simp [hq])
      · rw [if_neg (by simp [hpre])]
        exact ih text fun q hq => hall q (by simp [hq])
  · intro p text hp hpre hne
    unfold stripKnownPrompts
    rw [if_pos ⟨hp, hpre⟩]
    simp only [hne, if_neg hne]
    rfl

/-- Witness for the amended C7 at concrete inputs. -/
theorem claim_C7_prompt_filter_amended_witness :
    stripKnownPrompts [strL "hi"] (strL " hi ") = [] ∧
    stripKnownPrompts [strL "do x"] (strL "working") = strL "working" ∧
    stripKnownPrompts [strL "hi"] (strL "hi there") =
      jsTrim ((jsTrim (strL "hi there")).drop (jsTrim (strL "hi")).length) :=
  ⟨claim_C7_prompt_filter_amended.1 (strL "hi") (strL " hi ") (by decide)
      (by decide),
    claim_C7_prompt_filter_amended.2.1 [strL "do x"] (strL "working")
      (by decide),
    claim_C7_prompt_filter_amended.2.2 (strL "hi") (strL "hi there")
      (by decide) (by decide) (by decide)⟩

/-!
## Judge client

`parseLLMResult` (lines 1042-1059) and `interpretSemanticsViaLLM`
(lines 1075-1128) of `cursor-agent-task.js`.
-/

/-- The outcome of `JSON.parse` on the judge's stdout: `fail` models a thrown
parse exception (malformed or empty input), `obj` a parsed object with its
optional `result` and `reasons` fields.  Only string-valued `result` fields
are modelled: a non-string value compares unequal to all three verdict
tokens exactly like a string outside the set. -/
inductive LLMParse
  | fail
  | obj (result : Option Str) (reasons : Option (List Str))

/-- The three-way semantic judgement value: `result` is one of the verdict
token strings, `reasons` a list of human-readable reasons. -/
structure SemanticsResult where
  result : Str
  reasons : List Str
deriving DecidableEq

/-- `parseLLMResult` (cursor-agent-task.js lines 1042-1059): accept the
parsed object only when its `result` field is one of the three verdict
tokens, otherwise (including any parse failure) fail closed to `resume`.
The JS reason strings interpolate the dynamic error message; here the fixed
prefix stands for them. -/
def parseLLMResult (stdout : LLMParse) : SemanticsResult :=
  match stdout with
  | .fail => ⟨strL "resume", [strL "JSON解析失败"]⟩
  | .obj r reasons =>
    if r = some (strL "done") ∨ r = some (strL "resume") ∨
        r = some (strL "auto") then
      { result := r.getD [], reasons := reasons.getD [r.getD []] }
    else
      ⟨strL "resume", [strL "JSON解析失败: 无效的结果值"]⟩

/-- The resolved value of one `runCallLLMOnce` call (lines 980-1035): exit
code, parsed stdout, trimmed stderr. -/
structure CallResult where
  exitCode : Int
  stdout : LLMParse
  stderr : Str

/-- Outcome of awaiting `runCallLLMOnce`: resolution with a `CallResult`, or
rejection (`exn`) — the timeout path (`child.kill` then `reject`, lines
1015-1018) and the spawn-error path (lines 1030-1033). -/
inductive CallOutcome
  | ok (r : CallResult)
  | exn (msg : Str)

/-- `interpretSemanticsViaLLM` (lines 1075-1128): a non-zero exit code or
non-empty stderr of the judge call yields `resume` directly; a rejection
(timeout or spawn error) is caught and yields `resume`; otherwise the stdout
is parsed by `parseLLMResult`. -/
def interpretSemanticsViaLLM (call : CallOutcome) : SemanticsResult :=
  match call with
  | .exn msg => ⟨strL "resume", [strL "判定调用失败: " ++ msg]⟩
  | .ok r =>
    if r.exitCode ≠ 0 ∨ r.stderr ≠ [] then
      { result := strL "resume"
        reasons :=
          [strL "语义判定调用失败，默认需要继续执行",
            strL "退出码: " ++ (toString r.exitCode).data,
            if r.stderr ≠ [] then strL "错误: " ++ r.stderr.take 200
            else strL "无错误输出"] }
    else parseLLMResult r.stdout

/-- C4.  For every malformed/empty judge response, every response whose
result token is outside {done, resume, auto}, and every failed judge call
(non-zero exit, non-empty error output, timeout or spawn error), the
semantic judgement is the verdict `resume` with a non-empty list of reasons;
in particular it is never `done` in any of these failure cases. -/
theorem claim_C4_judge_fail_closed (c : CallOutcome)
    (h : (∃ m, c = .exn m) ∨
      (∃ r, c = .ok r ∧ (r.exitCode ≠ 0 ∨ r.stderr ≠ [] ∨ r.stdout = .fail ∨
        (∃ t reasons, r.stdout = .obj t reasons ∧ t ≠ some (strL "done") ∧
          t ≠ some (strL "resume") ∧ t ≠ some (strL "auto"))))) :
    (interpretSemanticsViaLLM c).result = strL "resume" ∧
    (interpretSemanticsViaLLM c).reasons ≠ [] ∧
    (interpretSemanticsViaLLM c).result ≠ strL "done" := by
  have hne : strL "resume" ≠ strL "done" := by decide
  rcases h with ⟨m, rfl⟩ | ⟨r, rfl, hfail⟩
  · exact ⟨rfl, by simp [interpretSemanticsViaLLM], hne⟩
  · simp only [interpretSemanticsViaLLM]
    by_cases hrt : r.exitCode ≠ 0 ∨ r.stderr ≠ []
    · rw [if_pos hrt]
      exact ⟨rfl, by simp, hne⟩
    · rw [if_neg hrt]
      push_neg at hrt
      rcases hfail with h1 | h2 | h3 | ⟨t, reasons, hst, ht1, ht2, ht3⟩
      · exact absurd hrt.1 (by simp [h1])
      · exact absurd hrt.2 (by simp [h2])
      · rw [h3]
        exact ⟨rfl, by simp [parseLLMResult], hne⟩
      · rw [hst]
        simp only [parseLLMResult]
        rw [if_neg (by simp [ht1, ht2, ht3])]
        exact ⟨rfl, by simp, hne⟩

/-- Witness for C4: a rejected judge call (timeout) and a clean call whose
response carries an unrecognised token both classify as `resume`. -/
theorem claim_C4_judge_fail_closed_witness :
    (interpretSemanticsViaLLM (.exn (strL "call-llm 执行超时"))).result =
      strL "resume" ∧
    (interpretSemanticsViaLLM
        (.ok ⟨0, .obj (some (strL "maybe")) none, []⟩)).result =
      strL "resume" :=
  ⟨(claim_C4_judge_fail_closed (.exn (strL "call-llm 执行超时"))
      (Or.inl ⟨_, rfl⟩)).1,
    (claim_C4_judge_fail_closed (.ok ⟨0, .obj (some (strL "maybe")) none, []⟩)
      (Or.inr ⟨_, rfl, Or.inr (Or.inr (Or.inr
        ⟨some (strL "maybe"), none, rfl, by decide, by decide, by decide⟩))⟩)).1⟩

/-!
## Task queue store: status updates

`cursor-tasks.js`, `update_task_status` (lines 827-840): find the first task
with the given name and mutate it in place; all other entries are untouched.
-/

/-- One task entry of `task.json`, with the fields read or written by
`update_task_status`. -/
structure QTask where
  name : Str
  id : Str
  status : Str
  error_message : Option Str
  report : Option Str
deriving DecidableEq

/-- The in-place mutation `update_task_status` performs on the found task
(lines 830-838).  JS truthiness: the `errorMessage` / `reportPath` arguments
count only when they are non-empty strings; `delete task.error_message`
becomes setting the optional field to `none`. -/
def applyStatus (t : QTask) (status : Str)
    (errorMessage reportPath : Option Str) : QTask :=
  { t with
    status := status
    error_message :=
      match errorMessage with
      | some e =>
        if e ≠ [] then some e
        else if status ≠ strL "error" then none else t.error_message
      | none => if status ≠ strL "error" then none else t.error_message
    report :=
      match reportPath with
      | some r => if r ≠ [] then some r else t.report
      | none => t.report }

/-- `update_task_status` (cursor-tasks.js lines 827-840): `tasks.find` takes
the first entry whose `name` matches and mutates only that entry. -/
def update_task_status : List QTask → Str → Str → Option Str → Option Str →
    List QTask
  | [], _, _, _, _ => []
  | t :: ts, taskName, status, errorMessage, reportPath =>
    if t.name = taskName then applyStatus t status errorMessage reportPath :: ts
    else t :: update_task_status ts taskName status errorMessage reportPath

/-- C9.  `update_task_status` mutates at most the single (first) task whose
name matches: every task with a different name keeps its exact entry, and if
no task matches the list is unchanged; moreover, when the new status is not
"error" and no error message is supplied, the matched task's
`error_message` field is removed, so a task just marked "done" carries no
stale error message. -/
theorem claim_C9_update_task_status_frame (tasks : List QTask)
    (taskName status : Str) (errorMessage reportPath : Option Str) :
    ((∀ t ∈ tasks, t.name ≠ taskName) →
      update_task_status tasks taskName status errorMessage reportPath =
        tasks) ∧
    (∀ (i : Nat) (t : QTask), tasks[i]? = some t → t.name ≠ taskName →
      (update_task_status tasks taskName status errorMessage reportPath)[i]? =
        some t) ∧
    (status ≠ strL "error" → errorMessage = none →
      ∀ (i : Nat) (t : QTask), tasks[i]? = some t → t.name = taskName →
        (∀ (j : Nat) (u : QTask), j < i → tasks[j]? = some u →
          u.name ≠ taskName) →
        ∃ t',
          (update_task_status tasks taskName status errorMessage
              reportPath)[i]? = some t' ∧
          t'.error_message = none ∧ t'.status = status) := by
  refine ⟨?_, ?_, ?_⟩
  · intro hall
    induction tasks with
    | nil => rfl
    | cons t ts ih =>
      unfold update_task_status
      rw [if_neg (hall t (by simp))]
      rw [ih fun u hu => hall u (by simp [hu])]
  · induction tasks with
    | nil =>
      intro i t ht
      simp at ht
    | cons t ts ih =>
      intro i u hu hname
      unfold update_task_status
      by_cases hmatch : t.name = taskName
      · rw [if_pos hmatch]
        match i, hu with
        | 0, hu =>
          have htu : t = u := by simpa using hu
          exact absurd (htu ▸ hmatch) hname
        | i + 1, hu => simpa using hu
      · rw [if_neg hmatch]
        match i, hu with
        | 0, hu => simpa using hu
        | i + 1, hu => simpa using ih i u (by simpa using hu) hname
  · intro hstatus herr
    induction tasks with
    | nil =>
      intro i t ht
      simp at ht
    | cons t ts ih =>
      intro i u hu hname hfirst
      unfold update_task_status
      by_cases hmatch : t.name = taskName
      · rw [if_pos hmatch]
        match i, hu, hfirst with
        | 0, hu, hfirst =>
          refine ⟨applyStatus t status errorMessage reportPath, by simp,
            ?_, rfl⟩
          subst herr
          simp [applyStatus, hstatus]
        | i + 1, hu, hfirst =>
          exact absurd hmatch (hfirst 0 t (Nat.succ_pos _) (by simp))
      · rw [if_neg hmatch]
        match i, hu, hfirst with
        | 0, hu, hfirst =>
          have htu : t = u := by simpa using hu
          exact absurd (htu ▸ hname) hmatch
        | i + 1, hu, hfirst =>
          have := ih i u (by simpa using hu) hname
            (fun j v hj hv => hfirst (j + 1) v (by omega) (by simpa using hv))
          simpa using this

/-- Witness for C9: marking the second task "done" removes its stale error
message and leaves the other task untouched. -/
theorem claim_C9_update_task_status_frame_witness :
    (update_task_status
        [⟨strL "a", strL "1", strL "pending", none, none⟩,
          ⟨strL "b", strL "2", strL "pending", some (strL "old"), none⟩]
        (strL "b") (strL "done") none none)[0]? =
      some ⟨strL "a", strL "1", strL "pending", none, none⟩ ∧
    ∃ t',
      (update_task_status
          [⟨strL "a", strL "1", strL "pending", none, none⟩,
            ⟨strL "b", strL "2", strL "pending", some (strL "old"), none⟩]
          (strL "b") (strL "done") none none)[1]? = some t' ∧
      t'.error_message = none ∧ t'.status = strL "done" :=
  ⟨(claim_C9_update_task_status_frame _ (strL "b") (strL "done") none none).2.1
      0 _ rfl (by decide),
    (claim_C9_update_task_status_frame _ (strL "b") (strL "done")
        none none).2.2 (by decide) rfl 1 _ rfl (by decide)
      (fun j u hj hu => by
        have hj0 : j = 0 := by omega
        subst hj0
        simp only [List.getElem?_cons_zero, Option.some.injEq] at hu
        subst hu
        decide)⟩

/-!
## Task queue store: queue-file validation

`cursor-tasks.js`, `validate_config` (lines 344-399) and `run_all_tasks`
(lines 1471-1601).
-/

/-- A `spec_file` JSON value: a string, an array of strings, or any other
JSON shape (`other`), which the format check rejects. -/
inductive SpecFileVal
  | str (s : Str)
  | arr (l : List Str)
  | other
deriving DecidableEq

/-- One raw task entry of the queue file, as inspected by `validate_config`:
`name` with `[]` standing for a missing/falsy name, `id` the already
stringified `String(task.id)` (`none` for undefined/null), `prompt` present
only when it is a string, `spec_file` the optional raw value, and `status`
with `[]` for a missing status. -/
structure RawTask where
  name : Str
  id : Option Str
  prompt : Option Str
  spec_file : Option SpecFileVal
  status : Str
deriving DecidableEq

/-- The queue file: `tasks` is `none` when the `tasks` field is missing or
not an array. -/
structure TaskConfig where
  tasks : Option (List RawTask)
deriving DecidableEq

/-- The validation loop of `validate_config` (lines 353-398), with the `names`
and `ids` accumulators standing for the two `Set`s.  (The JS adds a task's
name/id to the sets before later checks on the same task can throw; since a
throw aborts everything, adding only on full success of the entry is
observably identical.) -/
def validateTasks : List RawTask → List Str → List Str → Except Str Unit
  | [], _, _ => .ok ()
  | t :: rest, names, ids =>
    if t.name = [] then .error (strL "任务缺少 name 字段")
    else if names.contains t.name then .error (strL "任务名称重复")
    else
      match t.id with
      | none => .error (strL "任务缺少必填字段 id")
      | some rawId =>
        if (jsTrim rawId).length = 0 then .error (strL "id 字段不能为空字符串")
        else if 255 < (jsTrim rawId).length then
          .error (strL "id 字段长度不能超过 255 字符")
        else if ids.contains (jsTrim rawId) then .error (strL "任务 ID 重复")
        else if !(match t.prompt with
                  | some p => !(jsTrim p).isEmpty
                  | none => false) && !t.spec_file.isSome then
          .error (strL "必须至少提供 prompt 或 spec_file 其中之一")
        else
          match t.spec_file with
          | some .other => .error (strL "spec_file 必须是字符串或字符串数组")
          | some (.arr []) => .error (strL "spec_file 数组不能为空")
          | _ => validateTasks rest (t.name :: names) (jsTrim rawId :: ids)

/-- `validate_config` (cursor-tasks.js lines 344-399). -/
def validate_config (config : TaskConfig) : Except Str Unit :=
  match config.tasks with
  | none => .error (strL "task.json 中缺少 tasks 数组")
  | some tasks => validateTasks tasks [] []

/-- The structural conditions `validate_config` checks on a single task:
non-empty name; an id that is present and non-empty and at most 255
characters after trimming; a non-blank prompt or a present `spec_file`; and,
when `spec_file` is present, that it is a string or a non-empty array.
(Note: no condition about the referenced file existing.) -/
def taskStructOk (t : RawTask) : Bool :=
  !t.name.isEmpty &&
  (match t.id with
   | some rawId =>
     !(jsTrim rawId).isEmpty && decide ((jsTrim rawId).length ≤ 255)
   | none => false) &&
  ((match t.prompt with
    | some p => !(jsTrim p).isEmpty
    | none => false) || t.spec_file.isSome) &&
  (match t.spec_file with
   | some .other => false
   | some (.arr l) => !l.isEmpty
   | _ => true)

/-- The whole-queue structural condition: a tasks array is present, every
entry passes `taskStructOk`, names are pairwise distinct, and trimmed ids are
pairwise distinct. -/
def configOk (config : TaskConfig) : Prop :=
  ∃ tasks, config.tasks = some tasks ∧
    (∀ t ∈ tasks, taskStructOk t = true) ∧
    (tasks.map (fun t => t.name)).Nodup ∧
    (tasks.map (fun t => jsTrim (t.id.getD []))).Nodup

/-- The queue-level driver `run_all_tasks` (lines 1471-1601), restricted to
what decides claim C8: the queue file is validated before any task executes
(lines 1476-1480) and a validation error propagates, aborting the run with
no task executed; otherwise the tasks whose status is "pending" are executed
in order (lines 1522-1546; done/error/unknown-status entries are skipped).
Task execution itself is abstracted to the ordered list of names of the
tasks that get executed. -/
def run_all_tasks (config : TaskConfig) : Except Str (List Str) :=
  match validate_config config with
  | .error e => .error e
  | .ok () =>
    .ok (((config.tasks.getD []).filter
      (fun t => t.status = strL "pending")).map (fun t => t.name))

/-- The claim's notion of an *existing* spec-file reference, following the
spec's words ("at least a prompt or one existing spec reference"), relative
to a file system `fsExists`.  `validate_config` takes no file-system input
at all, which is what the counterexample exhibits. -/
def specRefExistsSpec (fsExists : Str → Bool) : Option SpecFileVal → Prop
  | some (.str s) => fsExists s = true
  | some (.arr l) => ∃ s ∈ l, fsExists s = true
  | _ => False

/-- C8 counterexample: a queue whose sole task has no prompt and whose only
spec-file reference does not exist (the file system is empty) nevertheless
passes validation, and the run proceeds to execute the task instead of
aborting — contradicting the claim that such a queue makes validation
throw. -/
theorem claim_C8_counterexample :
    ¬ specRefExistsSpec (fun _ => false)
        (some (SpecFileVal.str (strL "missing.md"))) ∧
    (RawTask.mk (strL "t") (some (strL "1")) none
        (some (SpecFileVal.str (strL "missing.md"))) (strL "pending")).prompt
      = none ∧
    validate_config
        ⟨some [RawTask.mk (strL "t") (some (strL "1")) none
          (some (SpecFileVal.str (strL "missing.md"))) (strL "pending")]⟩ =
      Except.ok () ∧
    run_all_tasks
        ⟨some [RawTask.mk (strL "t") (some (strL "1")) none
          (some (SpecFileVal.str (strL "missing.md"))) (strL "pending")]⟩ =
      Except.ok [strL "t"] := by
  exact ⟨fun h => by simp [specRefExistsSpec] at h, rfl, rfl, rfl⟩

/-- Declarative reading of the validation loop's remaining obligation when
`names` and `ids` have already been seen: every remaining task is
structurally fine, the remaining names (resp. trimmed ids) are pairwise
distinct and avoid the already-seen ones. -/
def tasksOkFrom (l : List RawTask) (names ids : List Str) : Prop :=
  (∀ t ∈ l, taskStructOk t = true) ∧
  (l.map (fun t => t.name)).Nodup ∧
  (∀ t ∈ l, t.name ∉ names) ∧
  (l.map (fun t => jsTrim (t.id.getD []))).Nodup ∧
  (∀ t ∈ l, jsTrim (t.id.getD []) ∉ ids)

/-- Peeling one structurally fine task off the declarative obligation. -/
theorem tasksOkFrom_cons {t : RawTask} {rest : List RawTask}
    {names ids : List Str} {rawId : Str} (htid : t.id = some rawId)
    (hok : taskStructOk t = true) (h2 : t.name ∉ names)
    (h5 : jsTrim rawId ∉ ids) :
    tasksOkFrom rest (t.name :: names) (jsTrim rawId :: ids) ↔
      tasksOkFrom (t :: rest) names ids := by
  have htidD : jsTrim (t.id.getD []) = jsTrim rawId := by rw [htid]; rfl
  constructor
  · rintro ⟨hA, hB, hC, hD, hE⟩
    refine ⟨?_, ?_, ?_, ?_, ?_⟩
    · intro u hu
      rcases List.mem_cons.mp hu with rfl | hu
      · exact hok
      · exact hA u hu
    · rw [List.map_cons, List.nodup_cons]
      refine ⟨?_, hB⟩
      rw [List.mem_map]
      rintro ⟨u, hu, hequ⟩
      exact hC u hu (hequ ▸ List.mem_cons_self _ _)
    · intro u hu
      rcases List.mem_cons.mp hu with rfl | hu
      · exact h2
      · exact fun hmem => hC u hu (List.mem_cons_of_mem _ hmem)
    · rw [List.map_cons, List.nodup_cons]
      refine ⟨?_, hD⟩
      rw [htidD, List.mem_map]
      rintro ⟨u, hu, hequ⟩
      exact hE u hu (hequ ▸ List.mem_cons_self _ _)
    · intro u hu
      rcases List.mem_cons.mp hu with rfl | hu
      · rw [htidD]
        exact h5
      · exact fun hmem => hE u hu (List.mem_cons_of_mem _ hmem)
  · rintro ⟨hA, hB, hC, hD, hE⟩
    rw [List.map_cons, List.nodup_cons] at hB hD
    refine ⟨fun u hu => hA u (List.mem_cons_of_mem _ hu), hB.2, ?_, hD.2, ?_⟩
    · intro u hu hmem
      rcases List.mem_cons.mp hmem with hname | hmem'
      · exact hB.1 (List.mem_map.mpr ⟨u, hu, hname⟩)
      · exact hC u (List.mem_cons_of_mem _ hu) hmem'
    · intro u hu hmem
      rcases List.mem_cons.mp hmem with heq | hmem'
      · rw [htidD] at hD
        exact hD.1 (List.mem_map.mpr ⟨u, hu, heq⟩)
      · exact hE u (List.mem_cons_of_mem _ hu) hmem'

/-- The validation loop succeeds exactly on the declaratively well-formed
remainder. -/
theorem validateTasks_ok_iff (l : List RawTask) :
    ∀ names ids : List Str,
      validateTasks l names ids = .ok () ↔ tasksOkFrom l names ids := by
  induction l with
  | nil =>
    intro names ids
    simp [validateTasks, tasksOkFrom]
  | cons t rest ih =>
    intro names ids
    unfold validateTasks
    by_cases h1 : t.name = []
    · rw [if_pos h1]
      constructor
      · intro h
        exact Except.noConfusion h
      · rintro ⟨hall, -⟩
        have ht := hall t (List.mem_cons_self t rest)
        simp [taskStructOk, h1] at ht
    · rw [if_neg h1]
      by_cases h2 : names.contains t.name = true
      · rw [if_pos h2]
        constructor
        · intro h
          exact Except.noConfusion h
        · rintro ⟨-, -, hnm, -, -⟩
          exact (hnm t (List.mem_cons_self t rest) (by simpa using h2)).elim
      · rw [if_neg h2]
        have h2' : t.name ∉ names := by simpa using h2
        cases htid : t.id with
        | none =>
          dsimp only []
          constructor
          · intro h
            exact Except.noConfusion h
          · rintro ⟨hall, -⟩
            have ht := hall t (List.mem_cons_self t rest)
            simp [taskStructOk, htid] at ht
        | some rawId =>
          dsimp only []
          by_cases h3 : (jsTrim rawId).length = 0
          · rw [if_pos h3]
            constructor
            · intro h
              exact Except.noConfusion h
            · rintro ⟨hall, -⟩
              have ht := hall t (List.mem_cons_self t rest)
              simp [taskStructOk, htid, List.length_eq_zero.mp h3] at ht
          · rw [if_neg h3]
            by_cases h4 : 255 < (jsTrim rawId).length
            · rw [if_pos h4]
              constructor
              · intro h
                exact Except.noConfusion h
              · rintro ⟨hall, -⟩
                have ht := hall t (List.mem_cons_self t rest)
                simp [taskStructOk, htid] at ht
                omega
            · rw [if_neg h4]
              by_cases h5 : ids.contains (jsTrim rawId) = true
              · rw [if_pos h5]
                constructor
                · intro h
                  exact Except.noConfusion h
                · rintro ⟨-, -, -, -, hid⟩
                  refine (hid t (List.mem_cons_self t rest) ?_).elim
                  rw [htid]
                  simpa using h5
              · rw [if_neg h5]
                have h5' : jsTrim rawId ∉ ids := by simpa using h5
                have hname : t.name.isEmpty = false := by
                  simp [List.isEmpty_iff, h1]
                have hid1 : (jsTrim rawId).isEmpty = false := by
                  cases hjs : jsTrim rawId with
                  | nil => exact absurd (by rw [hjs]; rfl) h3
                  | cons a as => rfl
                have hid2 : (jsTrim rawId).length ≤ 255 := by omega
                by_cases h6 : (!(match t.prompt with
                    | some p => !(jsTrim p).isEmpty
                    | none => false) && !t.spec_file.isSome) = true
                · rw [if_pos h6]
                  constructor
                  · intro h
                    exact Except.noConfusion h
                  · rintro ⟨hall, -⟩
                    have ht := hall t (List.mem_cons_self t rest)
                    simp only [Bool.and_eq_true, Bool.not_eq_true'] at h6
                    simp [taskStructOk, h6.1, h6.2] at ht
                · rw [if_neg h6]
                  simp only [Bool.and_eq_true, Bool.not_eq_true',
                    not_and_or, Bool.not_eq_false] at h6
                  cases hsf : t.spec_file with
                  | none =>
                    dsimp only []
                    have hprompt : (match t.prompt with
                        | some p => !(jsTrim p).isEmpty
                        | none => false) = true := by
                      rcases h6 with hp | hs
                      · exact hp
                      · rw [hsf] at hs
                        exact absurd hs (by simp)
                    have hok : taskStructOk t = true := by
                      simp [taskStructOk, hname, htid, hid1, hid2, hsf,
                        hprompt]
                    rw [ih (t.name :: names) (jsTrim rawId :: ids)]
                    exact tasksOkFrom_cons htid hok h2' h5'
                  | some sf =>
                    cases sf with
                    | str s =>
                      dsimp only []
                      have hok : taskStructOk t = true := by
                        simp [taskStructOk, hname, htid, hid1, hid2, hsf]
                      rw [ih (t.name :: names) (jsTrim rawId :: ids)]
                      exact tasksOkFrom_cons htid hok h2' h5'
                    | arr l =>
                      cases l with
                      | nil =>
                        dsimp only []
                        constructor
                        · intro h
                          exact Except.noConfusion h
                        · rintro ⟨hall, -⟩
                          have ht := hall t (List.mem_cons_self t rest)
                          simp [taskStructOk, hsf] at ht
                      | cons a as =>
                        dsimp only []
                        have hok : taskStructOk t = true := by
                          simp [taskStructOk, hname, htid, hid1, hid2, hsf]
                        rw [ih (t.name :: names) (jsTrim rawId :: ids)]
                        exact tasksOkFrom_cons htid hok h2' h5'
                    | other =>
                      dsimp only []
                      constructor
                      · intro h
                        exact Except.noConfusion h
                      · rintro ⟨hall, -⟩
                        have ht := hall t (List.mem_cons_self t rest)
                        simp [taskStructOk, hsf] at ht

/-- C8 amended.  Validation is purely structural: `validate_config` succeeds
exactly when a tasks array is present, every task has a non-empty name and a
present, non-blank, at-most-255-character (trimmed) id, names and trimmed
ids are pairwise unique, and each task has a non-blank prompt or a
well-formed `spec_file` reference (a string or a non-empty array).  Whether
a referenced spec file exists is *not* checked at validation time — that
check happens only later, inside the execution of the task itself.  A
validation error still aborts the whole run before any task executes, and a
queue passing validation proceeds to execute its pending tasks in order. -/
theorem claim_C8_validation_amended (config : TaskConfig) :
    (validate_config config = .ok () ↔ configOk config) ∧
    (∀ e, validate_config config = .error e →
      run_all_tasks config = .error e) ∧
    (validate_config config = .ok () →
      run_all_tasks config =
        .ok (((config.tasks.getD []).filter
          (fun t => t.status = strL "pending")).map (fun t => t.name))) := by
  refine ⟨?_, ?_, ?_⟩
  · unfold validate_config configOk
    cases config with
    | mk tasks =>
      cases tasks with
      | none =>
        simp
      | some l =>
        rw [validateTasks_ok_iff l [] []]
        simp [tasksOkFrom]
  · intro e he
    unfold run_all_tasks
    rw [he]
  · intro h
    unfold run_all_tasks
    rw [h]

/-- Witness for the amended C8: a structurally valid one-task queue runs its
task; a queue without a tasks array aborts with the validation error. -/
theorem claim_C8_validation_amended_witness :
    run_all_tasks ⟨some [RawTask.mk (strL "t") (some (strL "1"))
        (some (strL "do it")) none (strL "pending")]⟩ =
      Except.ok [strL "t"] ∧
    run_all_tasks ⟨none⟩ = Except.error (strL "task.json 中缺少 tasks 数组") :=
  ⟨(claim_C8_validation_amended _).2.2 (by rfl),
    (claim_C8_validation_amended _).2.1 _ (by rfl)⟩

/-!
## Retry/resume controller

`cursor-agent-task.js`, `executeTaskWithRetry` (lines 2560-2830), together
with the invocation interface of `runCursorAgentInitial` (lines 2316-2509)
and `runCursorAgentResume` (lines 1165-1332).  The `while` loop becomes
recursion on the remaining budget `retry - attempts`; awaiting the
invocation promise becomes an explicit `InvokeOutcome` (resolution or
rejection — the timeout path sends SIGTERM and rejects, lines 2465-2470 and
1288-1293); the spawn/judge side effects of each attempt are supplied by an
environment indexed by attempt number.  The issued invocations and the
attempts on which the judge was consulted are recorded as explicit traces.
-/

/-- The resolved value of one agent invocation (`runCursorAgentInitial` /
`runCursorAgentResume`): exit code, trimmed stdout (the extracted
transcript), trimmed stderr, duration, and the extracted session id. -/
structure AgentRunResult where
  exitCode : Int
  stdout : Str
  stderr : Str
  durationMs : Nat
  sessionId : Option Str
deriving DecidableEq

/-- Outcome of awaiting one invocation promise: resolution with an
`AgentRunResult`, or rejection (`exn`) — timeouts (SIGTERM + reject) and
spawn errors reject. -/
inductive InvokeOutcome
  | ok (r : AgentRunResult)
  | exn (msg : Str)
deriving DecidableEq

/-- The external behaviour feeding one attempt: the outcome its invocation
would produce, and the judgement the judge would return if consulted.
Attempt `n` reads the environment at index `n - 1`. -/
structure AttemptEnv where
  invoke : InvokeOutcome
  judge : SemanticsResult

/-- An invocation as issued by the controller: the initial spawn carries the
full prompt (line 2595); a resume spawn carries only the continuation handle
and a short instruction (line 2618, and the argument list of
`runCursorAgentResume`, lines 1174-1181 — the original prompt is not among
its arguments). -/
inductive Invocation
  | initial (prompt : Str)
  | resume (sessionId : Str) (instruction : Str)
deriving DecidableEq

/-- One entry of the `executions` attempt log. -/
structure Execution where
  index : Nat
  durationMs : Nat
  conclusion : Str
  sessionId : Option Str
  notes : List Str
deriving DecidableEq

/-- The mutable state of the retry loop, plus the ghost traces of issued
invocations (pairs of attempt number and invocation) and of the attempts on
which the judge was consulted. -/
structure LoopState where
  attempts : Nat
  sessionId : Option Str
  lastSem : Option SemanticsResult
  executions : List Execution
  invocations : List (Nat × Invocation)
  judgeCalls : List Nat
deriving DecidableEq

/-- How the loop terminated: `errored` for the `break`-with-error paths,
`completed` for the `done` verdict, `ceiling` for running out of budget
while still needing continuation. -/
inductive LoopExit
  | errored (msg : Str)
  | completed
  | ceiling
deriving DecidableEq

/-- The final report of `executeTaskWithRetry` (lines 2823-2829). -/
structure ExecReport where
  success : Bool
  attempts : Nat
  finalStatus : Str
  executions : List Execution
  errorMessage : Option Str
deriving DecidableEq

/-- The short instruction of a resume attempt, from the retained most recent
judgement (lines 2611-2613): "按你的建议执行" (apply your suggestion) when it
was `auto`, "请继续" (continue) otherwise. -/
def resumeInstruction (lastSem : Option SemanticsResult) : Str :=
  match lastSem with
  | some s =>
    if s.result = strL "auto" then strL "按你的建议执行" else strL "请继续"
  | none => strL "请继续"

/-- The `fullError` string of the runtime-error branch (line 2639). -/
def runtimeErrorText (r : AgentRunResult) : Str :=
  strL "运行时错误: 退出码 " ++ (toString r.exitCode).data ++ strL "\n" ++
  (if r.stderr = [] then strL "无错误输出" else r.stderr) ++
  strL "\n\n标准输出:\n" ++ r.stdout

/-- The translated conclusion recorded for a judged attempt (lines
2684-2685). -/
def conclusionOf (result : Str) : Str :=
  if result = strL "done" then strL "已完成"
  else if result = strL "auto" then strL "建议继续"
  else strL "需要继续"

/-- One iteration of the retry loop body of `executeTaskWithRetry` (lines
2577-2799): increment `attempts`; issue the initial invocation on attempt 1,
otherwise a resume bound to the current session id (erroring out when none
was ever extracted, lines 2603-2608); on rejection record the attempt and
stop with that error (lines 2780-2798); on a non-zero exit code or
non-empty stderr record a runtime error and stop without consulting the
judge (lines 2637-2659); otherwise consult the judge, retain its verdict,
record the attempt, and stop on `done` (lines 2747-2759) or hand the state
to the next iteration.  `.inl` is a `break` with the loop's exit mode,
`.inr` continues the loop. -/
def loopStep (env : Nat → AttemptEnv) (prompt : Str) (st : LoopState) :
    (LoopState × LoopExit) ⊕ LoopState :=
  let n := st.attempts + 1
  let invOpt : Option Invocation :=
    if n = 1 then some (.initial prompt)
    else
      match st.sessionId with
      | none => none
      | some sid => some (.resume sid (resumeInstruction st.lastSem))
  match invOpt with
  | none =>
    .inl ({ st with attempts := n },
      .errored (strL "未找到 session_id，无法继续执行"))
  | some inv =>
    let st1 := { st with
      attempts := n
      invocations := st.invocations ++ [(n, inv)] }
    match (env (n - 1)).invoke with
    | .exn msg =>
      .inl ({ st1 with executions := st1.executions ++
          [⟨n, 0, strL "执行出错", none,
            [msg.take 500 ++ (if 500 < msg.length then strL "..."
              else [])]⟩] },
        .errored msg)
    | .ok r =>
      let st2 := { st1 with sessionId :=
        match r.sessionId with
        | some s => some s
        | none => st1.sessionId }
      if r.exitCode ≠ 0 ∨ r.stderr ≠ [] then
        .inl ({ st2 with executions := st2.executions ++
            [⟨n, r.durationMs, strL "运行时错误", none,
              [(runtimeErrorText r).take 500 ++
                (if 500 < (runtimeErrorText r).length then strL "..."
                  else [])]⟩] },
          .errored ((runtimeErrorText r).take 200))
      else
        let sem := (env (n - 1)).judge
        let st3 := { st2 with
          lastSem := some sem
          judgeCalls := st2.judgeCalls ++ [n]
          executions := st2.executions ++
            [⟨n, r.durationMs, conclusionOf sem.result,
              (match r.sessionId with
                | some s => some s
                | none => st2.sessionId),
              [strL "判定结果: " ++ sem.result] ++ sem.reasons ++
                [r.stdout.take 200 ++ strL "..."]⟩] }
        if sem.result = strL "done" then .inl (st3, .completed)
        else .inr st3

/-- The `while (needsContinue && attempts < retry)` loop (line 2577),
recursing on the remaining budget `retry - attempts`: budget exhausted while
still needing continuation is the `ceiling` exit. -/
def runLoop (env : Nat → AttemptEnv) (prompt : Str) :
    Nat → LoopState → LoopState × LoopExit
  | 0, st => (st, .ceiling)
  | fuel + 1, st =>
    match loopStep env prompt st with
    | .inl out => out
    | .inr st' => runLoop env prompt fuel st'

/-- The initial loop state (lines 2561-2567). -/
def initLoopState : LoopState := ⟨0, none, none, [], [], []⟩

/-- Deriving the final report from the loop outcome (lines 2801-2829).  The
`needsContinue` flag is cleared only on the `done` verdict, so on an
`errored` exit it is still set and the ceiling check of line 2802 overwrites
`finalStatus` to "partial" whenever the error struck the final allowed
attempt. -/
def reportOf (retry : Nat) : LoopState × LoopExit → ExecReport
  | (st, .errored msg) =>
    let fs := if retry ≤ st.attempts then strL "partial" else strL "error"
    { success := decide (fs = strL "done")
      attempts := st.attempts
      finalStatus := fs
      executions := st.executions
      errorMessage := some msg }
  | (st, .completed) =>
    { success := decide ((strL "done" : Str) = strL "done")
      attempts := st.attempts
      finalStatus := strL "done"
      executions := st.executions
      errorMessage := none }
  | (st, .ceiling) =>
    { success := decide ((strL "partial" : Str) = strL "done")
      attempts := st.attempts
      finalStatus := strL "partial"
      executions := st.executions
      errorMessage := none }

/-- `executeTaskWithRetry` (cursor-agent-task.js lines 2560-2830). -/
def executeTaskWithRetry (env : Nat → AttemptEnv) (prompt : Str)
    (retry : Nat) : ExecReport :=
  reportOf retry (runLoop env prompt retry initLoopState)

/-- A clean, non-final iteration: the invocation resolves with exit code 0,
empty stderr and a session id, and the judge does not say `done` — the loop
records the attempt and continues with the advanced state. -/
theorem loopStep_clean (env : Nat → AttemptEnv) (prompt : Str)
    (st : LoopState) (r : AgentRunResult) (s : Str)
    (hinv : (env st.attempts).invoke = .ok r) (hexit : r.exitCode = 0)
    (hstderr : r.stderr = []) (hsess : r.sessionId = some s)
    (hjud : (env st.attempts).judge.result ≠ strL "done")
    (hsid : st.attempts = 0 ∨ ∃ sid, st.sessionId = some sid) :
    ∃ st', loopStep env prompt st = .inr st' ∧
      st'.attempts = st.attempts + 1 ∧
      st'.sessionId = some s ∧
      st'.lastSem = some ((env st.attempts).judge) ∧
      st'.executions.length = st.executions.length + 1 ∧
      st'.judgeCalls = st.judgeCalls ++ [st.attempts + 1] ∧
      (∃ inv, st'.invocations = st.invocations ++ [(st.attempts + 1, inv)] ∧
        (st.attempts = 0 → inv = .initial prompt) ∧
        (∀ sid, st.sessionId = some sid → 1 ≤ st.attempts →
          inv = .resume sid (resumeInstruction st.lastSem))) := by
  unfold loopStep
  dsimp only []
  have hn1 : st.attempts + 1 - 1 = st.attempts := by omega
  rcases Nat.eq_zero_or_pos st.attempts with h0 | hpos
  · have hscrut : (if st.attempts + 1 = 1 then
        some (Invocation.initial prompt)
      else
        match st.sessionId with
        | none => none
        | some sid => some (.resume sid (resumeInstruction st.lastSem))) =
        some (Invocation.initial prompt) := by
      rw [if_pos (by omega)]
    rw [hscrut]
    dsimp only []
    rw [hn1, hinv]
    dsimp only []
    rw [hsess]
    dsimp only []
    rw [if_neg (by simp [hexit, hstderr])]
    rw [if_neg hjud]
    exact ⟨_, rfl, rfl, rfl, rfl, by simp, rfl,
      ⟨.initial prompt, rfl, fun _ => rfl, fun sid hs hge => by omega⟩⟩
  · rcases hsid with h0 | ⟨sid, hsid⟩
    · omega
    · have hscrut : (if st.attempts + 1 = 1 then
          some (Invocation.initial prompt)
        else
          match st.sessionId with
          | none => none
          | some sid' => some (.resume sid' (resumeInstruction st.lastSem))) =
          some (Invocation.resume sid (resumeInstruction st.lastSem)) := by
        rw [if_neg (by omega), hsid]
      rw [hscrut]
      dsimp only []
      rw [hn1, hinv]
      dsimp only []
      rw [hsess]
      dsimp only []
      rw [if_neg (by simp [hexit, hstderr])]
      rw [if_neg hjud]
      refine ⟨_, rfl, rfl, rfl, rfl, by simp, rfl,
        ⟨.resume sid (resumeInstruction st.lastSem), rfl,
          fun h => by omega, ?_⟩⟩
      intro sid' hs _
      rw [hsid] at hs
      cases hs
      rfl

/-- A rejected invocation (timeout or spawn error): the loop records the
attempt and breaks with that error; the session id is not updated. -/
theorem loopStep_exn (env : Nat → AttemptEnv) (prompt : Str)
    (st : LoopState) (msg : Str)
    (hinv : (env st.attempts).invoke = .exn msg)
    (hsid : st.attempts = 0 ∨ ∃ sid, st.sessionId = some sid) :
    ∃ st', loopStep env prompt st = .inl (st', .errored msg) ∧
      st'.attempts = st.attempts + 1 ∧
      st'.sessionId = st.sessionId ∧
      st'.executions.length = st.executions.length + 1 ∧
      st'.invocations.length = st.invocations.length + 1 ∧
      st'.judgeCalls = st.judgeCalls := by
  unfold loopStep
  dsimp only []
  have hn1 : st.attempts + 1 - 1 = st.attempts := by omega
  rcases Nat.eq_zero_or_pos st.attempts with h0 | hpos
  · have hscrut : (if st.attempts + 1 = 1 then
        some (Invocation.initial prompt)
      else
        match st.sessionId with
        | none => none
        | some sid => some (.resume sid (resumeInstruction st.lastSem))) =
        some (Invocation.initial prompt) := by
      rw [if_pos (by omega)]
    rw [hscrut]
    dsimp only []
    rw [hn1, hinv]
    exact ⟨_, rfl, rfl, rfl, by simp, by simp, rfl⟩
  · rcases hsid with h0 | ⟨sid, hsid⟩
    · omega
    · have hscrut : (if st.attempts + 1 = 1 then
          some (Invocation.initial prompt)
        else
          match st.sessionId with
          | none => none
          | some sid' => some (.resume sid' (resumeInstruction st.lastSem))) =
          some (Invocation.resume sid (resumeInstruction st.lastSem)) := by
        rw [if_neg (by omega), hsid]
      rw [hscrut]
      dsimp only []
      rw [hn1, hinv]
      exact ⟨_, rfl, rfl, rfl, by simp, by simp, rfl⟩

/-- The invocation trace of a step result. -/
def invocationsOf : (LoopState × LoopExit) ⊕ LoopState →
    List (Nat × Invocation)
  | .inl out => out.1.invocations
  | .inr st' => st'.invocations

/-- What one iteration does to the invocation trace: except for the
missing-session error path (which spawns nothing), exactly one invocation is
issued — the initial one on attempt 1, otherwise a resume bound to the
current session id with the instruction derived from the retained
judgement. -/
theorem loopStep_invocations_spec (env : Nat → AttemptEnv) (prompt : Str)
    (st : LoopState) :
    (invocationsOf (loopStep env prompt st) = st.invocations ∧
      st.sessionId = none ∧ 1 ≤ st.attempts) ∨
    ∃ inv, invocationsOf (loopStep env prompt st) =
        st.invocations ++ [(st.attempts + 1, inv)] ∧
      (st.attempts = 0 → inv = .initial prompt) ∧
      (1 ≤ st.attempts → ∃ sid, st.sessionId = some sid ∧
        inv = .resume sid (resumeInstruction st.lastSem)) := by
  unfold loopStep
  dsimp only []
  rcases Nat.eq_zero_or_pos st.attempts with h0 | hpos
  · have hscrut : (if st.attempts + 1 = 1 then
        some (Invocation.initial prompt)
      else
        match st.sessionId with
        | none => none
        | some sid => some (.resume sid (resumeInstruction st.lastSem))) =
        some (Invocation.initial prompt) := by
      rw [if_pos (by omega)]
    rw [hscrut]
    dsimp only []
    refine Or.inr ⟨.initial prompt, ?_, fun _ => rfl, fun h => by omega⟩
    cases hinv : (env (st.attempts + 1 - 1)).invoke with
    | exn msg => rfl
    | ok r =>
      dsimp only []
      by_cases herr : r.exitCode ≠ 0 ∨ r.stderr ≠ []
      · rw [if_pos herr]
        rfl
      · rw [if_neg herr]
        by_cases hdone : (env (st.attempts + 1 - 1)).judge.result =
            strL "done"
        · rw [if_pos hdone]
          rfl
        · rw [if_neg hdone]
          rfl
  · cases hsid : st.sessionId with
    | none =>
      have hscrut : (if st.attempts + 1 = 1 then
          some (Invocation.initial prompt)
        else
          match (none : Option Str) with
          | none => none
          | some sid => some (.resume sid (resumeInstruction st.lastSem))) =
          (none : Option Invocation) := by
        rw [if_neg (by omega)]
      rw [hscrut]
      exact Or.inl ⟨rfl, rfl, hpos⟩
    | some sid =>
      have hscrut : (if st.attempts + 1 = 1 then
          some (Invocation.initial prompt)
        else
          match (some sid : Option Str) with
          | none => none
          | some sid' => some (.resume sid' (resumeInstruction st.lastSem))) =
          some (Invocation.resume sid (resumeInstruction st.lastSem)) := by
        rw [if_neg (by omega)]
      rw [hscrut]
      dsimp only []
      refine Or.inr ⟨.resume sid (resumeInstruction st.lastSem), ?_,
        fun h => by omega, fun _ => ⟨sid, rfl, rfl⟩⟩
      cases hinv : (env (st.attempts + 1 - 1)).invoke with
      | exn msg => rfl
      | ok r =>
        dsimp only []
        by_cases herr : r.exitCode ≠ 0 ∨ r.stderr ≠ []
        · rw [if_pos herr]
          rfl
        · rw [if_neg herr]
          by_cases hdone : (env (st.attempts + 1 - 1)).judge.result =
              strL "done"
          · rw [if_pos hdone]
            rfl
          · rw [if_neg hdone]
            rfl

/-- The invocation trace only grows along the loop. -/
theorem runLoop_invocations_mono (env : Nat → AttemptEnv) (prompt : Str) :
    ∀ (fuel : Nat) (st : LoopState) (q : Nat × Invocation),
      q ∈ st.invocations →
      q ∈ (runLoop env prompt fuel st).1.invocations := by
  intro fuel
  induction fuel with
  | zero =>
    intro st q hq
    exact hq
  | succ f ih =>
    intro st q hq
    have hspec := loopStep_invocations_spec env prompt st
    unfold runLoop
    cases hstep : loopStep env prompt st with
    | inl out =>
      rw [hstep] at hspec
      rcases hspec with ⟨heq, -⟩ | ⟨inv, heq, -⟩
      · rw [show invocationsOf (Sum.inl out) = out.1.invocations from rfl]
          at heq
        rw [heq]
        exact hq
      · rw [show invocationsOf (Sum.inl out) = out.1.invocations from rfl]
          at heq
        rw [heq]
        exact List.mem_append_left _ hq
    | inr st' =>
      rw [hstep] at hspec
      rcases hspec with ⟨heq, -⟩ | ⟨inv, heq, -⟩
      · rw [show invocationsOf (Sum.inr st') = st'.invocations from rfl]
          at heq
        exact ih st' q (heq ▸ hq)
      · rw [show invocationsOf (Sum.inr st') = st'.invocations from rfl]
          at heq
        exact ih st' q (heq ▸ List.mem_append_left _ hq)

/-- The shape every recorded invocation has: the initial prompt on attempt 1,
a short-instruction resume on every later attempt. -/
def invShape (prompt : Str) (q : Nat × Invocation) : Prop :=
  (q.1 = 1 → q.2 = .initial prompt) ∧
  (2 ≤ q.1 → ∃ sid, q.2 = .resume sid (strL "按你的建议执行") ∨
    q.2 = .resume sid (strL "请继续"))

/-- The resume instruction is always one of the two fixed strings. -/
theorem resumeInstruction_cases (lastSem : Option SemanticsResult) :
    resumeInstruction lastSem = strL "按你的建议执行" ∨
    resumeInstruction lastSem = strL "请继续" := by
  cases lastSem with
  | none => exact Or.inr rfl
  | some s =>
    unfold resumeInstruction
    dsimp only []
    by_cases h : s.result = strL "auto"
    · rw [if_pos h]
      exact Or.inl rfl
    · rw [if_neg h]
      exact Or.inr rfl

/-- Every invocation the loop ever records is well shaped. -/
theorem runLoop_invShape (env : Nat → AttemptEnv) (prompt : Str) :
    ∀ (fuel : Nat) (st : LoopState),
      (∀ q ∈ st.invocations, invShape prompt q) →
      ∀ q ∈ (runLoop env prompt fuel st).1.invocations, invShape prompt q := by
  intro fuel
  induction fuel with
  | zero =>
    intro st hst q hq
    exact hst q hq
  | succ f ih =>
    intro st hst q hq
    have hspec := loopStep_invocations_spec env prompt st
    have hnew : ∀ inv,
        (st.attempts = 0 → inv = Invocation.initial prompt) →
        (1 ≤ st.attempts → ∃ sid, st.sessionId = some sid ∧
          inv = .resume sid (resumeInstruction st.lastSem)) →
        invShape prompt (st.attempts + 1, inv) := by
      intro inv hinit hres
      rcases Nat.eq_zero_or_pos st.attempts with h0 | hpos
      · exact ⟨fun _ => h0 ▸ hinit h0, fun h2 => by omega⟩
      · rcases hres hpos with ⟨sid, -, hinv⟩
        refine ⟨fun h1 => by omega, fun _ => ⟨sid, ?_⟩⟩
        rw [hinv]
        rcases resumeInstruction_cases st.lastSem with h | h
        · exact Or.inl (by rw [h])
        · exact Or.inr (by rw [h])
    rw [runLoop] at hq
    revert hq
    cases hstep : loopStep env prompt st with
    | inl out =>
      rw [hstep] at hspec
      intro hq
      rcases hspec with ⟨heq, -⟩ | ⟨inv, heq, hinit, hres⟩
      · rw [show invocationsOf (Sum.inl out) = out.1.invocations from rfl]
          at heq
        exact hst q (heq ▸ hq)
      · rw [show invocationsOf (Sum.inl out) = out.1.invocations from rfl]
          at heq
        rw [heq] at hq
        rcases List.mem_append.mp hq with hq | hq
        · exact hst q hq
        · rw [List.mem_singleton.mp hq]
          exact hnew inv hinit hres
    | inr st' =>
      rw [hstep] at hspec
      intro hq
      rcases hspec with ⟨heq, -, -⟩ | ⟨inv, heq, hinit, hres⟩
      · rw [show invocationsOf (Sum.inr st') = st'.invocations from rfl]
          at heq
        refine ih st' ?_ q hq
        intro p hp
        exact hst p (heq ▸ hp)
      · rw [show invocationsOf (Sum.inr st') = st'.invocations from rfl]
          at heq
        refine ih st' ?_ q hq
        intro p hp
        rw [heq] at hp
        rcases List.mem_append.mp hp with hp | hp
        · exact hst p hp
        · rw [List.mem_singleton.mp hp]
          exact hnew inv hinit hres

/-- If every remaining budgeted attempt is clean (exit 0, empty stderr, a
session id) and judged non-done, the loop runs the whole budget and exits at
the ceiling. -/
theorem runLoop_clean_run (env : Nat → AttemptEnv) (prompt : Str)
    (rs : Nat → AgentRunResult) (ss : Nat → Str) :
    ∀ (fuel : Nat) (st : LoopState),
      (∀ i, st.attempts ≤ i → i < st.attempts + fuel →
        (env i).invoke = .ok (rs i) ∧ (rs i).exitCode = 0 ∧
        (rs i).stderr = [] ∧ (rs i).sessionId = some (ss i) ∧
        (env i).judge.result ≠ strL "done") →
      (st.attempts = 0 ∨ ∃ sid, st.sessionId = some sid) →
      (runLoop env prompt fuel st).1.attempts = st.attempts + fuel ∧
      (runLoop env prompt fuel st).1.executions.length =
        st.executions.length + fuel ∧
      (runLoop env prompt fuel st).2 = .ceiling := by
  intro fuel
  induction fuel with
  | zero =>
    intro st _ _
    exact ⟨rfl, rfl, rfl⟩
  | succ f ih =>
    intro st hclean hsid
    have hc := hclean st.attempts le_rfl (by omega)
    rcases loopStep_clean env prompt st (rs st.attempts) (ss st.attempts)
        hc.1 hc.2.1 hc.2.2.1 hc.2.2.2.1 hc.2.2.2.2 hsid with
      ⟨st', hstep, ha, hs, -, hexl, -, -⟩
    have hrec := ih st'
      (fun i hi1 hi2 => hclean i (by omega) (by omega))
      (Or.inr ⟨_, hs⟩)
    rw [runLoop, hstep]
    refine ⟨?_, ?_, hrec.2.2⟩
    · rw [hrec.1, ha]
      omega
    · rw [hrec.2.1, hexl]
      omega

/-- Unrolling `k` clean, non-done attempts from a state: the loop is the
loop from the advanced state, whose attempt counter grew by `k` and whose
session id / retained judgement come from the most recent of those
attempts. -/
theorem runLoop_clean_prefix (env : Nat → AttemptEnv) (prompt : Str)
    (rs : Nat → AgentRunResult) (ss : Nat → Str) :
    ∀ (k fuel : Nat) (st : LoopState),
      (∀ i, st.attempts ≤ i → i < st.attempts + k →
        (env i).invoke = .ok (rs i) ∧ (rs i).exitCode = 0 ∧
        (rs i).stderr = [] ∧ (rs i).sessionId = some (ss i) ∧
        (env i).judge.result ≠ strL "done") →
      (st.attempts = 0 ∨ ∃ sid, st.sessionId = some sid) →
      k ≤ fuel →
      ∃ st', runLoop env prompt fuel st = runLoop env prompt (fuel - k) st' ∧
        st'.attempts = st.attempts + k ∧
        st'.executions.length = st.executions.length + k ∧
        (k = 0 → st' = st) ∧
        (1 ≤ k → st'.sessionId = some (ss (st.attempts + k - 1)) ∧
          st'.lastSem = some ((env (st.attempts + k - 1)).judge)) := by
  intro k
  induction k with
  | zero =>
    intro fuel st _ _ _
    exact ⟨st, rfl, rfl, rfl, fun _ => rfl, fun h => by omega⟩
  | succ j ih =>
    intro fuel st hclean hsid hkf
    have hc := hclean st.attempts le_rfl (by omega)
    rcases loopStep_clean env prompt st (rs st.attempts) (ss st.attempts)
        hc.1 hc.2.1 hc.2.2.1 hc.2.2.2.1 hc.2.2.2.2 hsid with
      ⟨st1, hstep, ha, hs, hl, hexl, -, -⟩
    rcases Nat.exists_eq_add_of_le hkf with ⟨f, hf⟩
    rcases ih (fuel - 1) st1
        (fun i hi1 hi2 => hclean i (by omega) (by omega))
        (Or.inr ⟨_, hs⟩) (by omega) with
      ⟨st', hrun, ha', hexl', hzero, hlate⟩
    refine ⟨st', ?_, by omega, by omega, fun h => by omega, ?_⟩
    · have hfuel : fuel = (fuel - 1) + 1 := by omega
      rw [hfuel, runLoop, hstep]
      dsimp only []
      rw [hrun]
      congr 1
      omega
    · intro hj
      rcases Nat.eq_zero_or_pos j with hj0 | hjpos
      · subst hj0
        have hst' : st' = st1 := hzero rfl
        have he1 : st.attempts + (0 + 1) - 1 = st.attempts := by omega
        rw [he1, hst']
        exact ⟨hs, hl⟩
      · rcases hlate hjpos with ⟨hs', hl'⟩
        have he1 : st1.attempts + j - 1 = st.attempts + (j + 1) - 1 := by
          omega
        rw [he1] at hs' hl'
        exact ⟨hs', hl'⟩

/-- From a state with at least one completed attempt and a session id, the
next iteration issues the resume invocation with the retained instruction,
whatever that attempt's outcome. -/
theorem runLoop_issues_resume (env : Nat → AttemptEnv) (prompt : Str)
    (fuel : Nat) (st : LoopState) (sid : Str)
    (hf : 1 ≤ fuel) (ha : 1 ≤ st.attempts)
    (hsid : st.sessionId = some sid) :
    (st.attempts + 1, Invocation.resume sid (resumeInstruction st.lastSem)) ∈
      (runLoop env prompt fuel st).1.invocations := by
  have hfuel : fuel = (fuel - 1) + 1 := by omega
  rw [hfuel, runLoop]
  have hspec := loopStep_invocations_spec env prompt st
  cases hstep : loopStep env prompt st with
  | inl out =>
    rw [hstep] at hspec
    rcases hspec with ⟨-, hnone, -⟩ | ⟨inv, heq, -, hres⟩
    · rw [hsid] at hnone
      cases hnone
    · rcases hres ha with ⟨sid', hsid', hinv⟩
      rw [hsid] at hsid'
      have : sid = sid' := Option.some.inj hsid'
      subst this
      rw [show invocationsOf (Sum.inl out) = out.1.invocations from rfl]
        at heq
      dsimp only []
      rw [heq, hinv]
      exact List.mem_append_right _ (by simp)
  | inr st' =>
    rw [hstep] at hspec
    rcases hspec with ⟨-, hnone, -⟩ | ⟨inv, heq, -, hres⟩
    · rw [hsid] at hnone
      cases hnone
    · rcases hres ha with ⟨sid', hsid', hinv⟩
      rw [hsid] at hsid'
      have : sid = sid' := Option.some.inj hsid'
      subst this
      rw [show invocationsOf (Sum.inr st') = st'.invocations from rfl]
        at heq
      dsimp only []
      refine runLoop_invocations_mono env prompt _ st' _ ?_
      rw [heq, hinv]
      exact List.mem_append_right _ (by simp)

/-- C2.  For a judge that answers resume (or auto) after every invocation
and invocations that all succeed cleanly (exit 0, empty error stream, a
session id extracted), the controller performs exactly `retry` attempts
(with one attempt record each) and reports finalStatus "partial" and
success false. -/
theorem claim_C2_retry_ceiling (env : Nat → AttemptEnv) (prompt : Str)
    (retry : Nat) (rs : Nat → AgentRunResult) (ss : Nat → Str)
    (_hr : 1 ≤ retry)
    (hclean : ∀ i, i < retry → (env i).invoke = .ok (rs i) ∧
      (rs i).exitCode = 0 ∧ (rs i).stderr = [] ∧
      (rs i).sessionId = some (ss i))
    (hjud : ∀ i, i < retry → (env i).judge.result = strL "resume" ∨
      (env i).judge.result = strL "auto") :
    (executeTaskWithRetry env prompt retry).attempts = retry ∧
    (executeTaskWithRetry env prompt retry).executions.length = retry ∧
    (executeTaskWithRetry env prompt retry).finalStatus = strL "partial" ∧
    (executeTaskWithRetry env prompt retry).success = false := by
  have h0 : initLoopState.attempts = 0 := rfl
  have h0e : initLoopState.executions.length = 0 := rfl
  have h := runLoop_clean_run env prompt rs ss retry initLoopState
    (fun i hi1 hi2 => by
      have hc := hclean i (by omega)
      have hj := hjud i (by omega)
      refine ⟨hc.1, hc.2.1, hc.2.2.1, hc.2.2.2, ?_⟩
      rcases hj with hj | hj <;> rw [hj] <;> decide)
    (Or.inl h0)
  obtain ⟨h1, h2, h3⟩ := h
  unfold executeTaskWithRetry
  rcases hrl : runLoop env prompt retry initLoopState with ⟨stf, ex⟩
  rw [hrl] at h1 h2 h3
  dsimp only [] at h1 h2 h3
  subst h3
  refine ⟨by dsimp only [reportOf]; omega,
    by dsimp only [reportOf]; omega, rfl, rfl⟩

/-- C6.  Every invocation the controller ever issues on an attempt n ≥ 2 is
a resume carrying only one of the two short instructions (the original
prompt is sent only on attempt 1); and whenever the first n−1 attempts are
clean and judged non-done, the invocation of attempt n is a resume bound to
the session id extracted on the most recent attempt (n−1) with the
instruction chosen by the previous verdict: "按你的建议执行" exactly when it
was auto, "请继续" otherwise. -/
theorem claim_C6_resume_protocol (env : Nat → AttemptEnv) (prompt : Str)
    (retry : Nat) (rs : Nat → AgentRunResult) (ss : Nat → Str) :
    (∀ q ∈ (runLoop env prompt retry initLoopState).1.invocations,
      (q.1 = 1 → q.2 = .initial prompt) ∧
      (2 ≤ q.1 → ∃ sid, q.2 = .resume sid (strL "按你的建议执行") ∨
        q.2 = .resume sid (strL "请继续"))) ∧
    (∀ n, 2 ≤ n → n ≤ retry →
      (∀ i, i < n - 1 → (env i).invoke = .ok (rs i) ∧ (rs i).exitCode = 0 ∧
        (rs i).stderr = [] ∧ (rs i).sessionId = some (ss i) ∧
        (env i).judge.result ≠ strL "done") →
      (n, Invocation.resume (ss (n - 2))
          (if (env (n - 2)).judge.result = strL "auto" then
            strL "按你的建议执行" else strL "请继续")) ∈
        (runLoop env prompt retry initLoopState).1.invocations) := by
  have h0 : initLoopState.attempts = 0 := rfl
  constructor
  · exact runLoop_invShape env prompt retry initLoopState
      (fun q hq => absurd hq (List.not_mem_nil q))
  · intro n hn2 hnr hclean
    obtain ⟨st', hrun, ha, -, -, hlate⟩ :=
      runLoop_clean_prefix env prompt rs ss (n - 1) retry initLoopState
        (fun i hi1 hi2 => hclean i (by omega)) (Or.inl h0) (by omega)
    obtain ⟨hs', hl'⟩ := hlate (by omega)
    have hidx : initLoopState.attempts + (n - 1) - 1 = n - 2 := by omega
    rw [hidx] at hs' hl'
    rw [hrun]
    have hmem := runLoop_issues_resume env prompt (retry - (n - 1)) st'
      (ss (n - 2)) (by omega) (by omega) hs'
    rw [hl'] at hmem
    have hatt : st'.attempts + 1 = n := by omega
    rw [hatt] at hmem
    simpa [resumeInstruction] using hmem

/-- C5 amended.  A timed-out (or otherwise rejected) invocation on attempt k
is treated like any other runtime error for the current task: the attempt is
not retried and no further attempt is started even when retry budget
remains — the task's loop stops with exactly k attempt records, the
rejection message as the error message, finalStatus "error" (masked to
"partial" when k is the final allowed attempt, see C3), and no
continuation-handle update (the session id stays whatever the previous
attempt extracted). -/
theorem claim_C5_timeout_stops_task_amended (env : Nat → AttemptEnv)
    (prompt : Str) (retry k : Nat) (msg : Str)
    (rs : Nat → AgentRunResult) (ss : Nat → Str)
    (hk : 1 ≤ k) (hkr : k ≤ retry)
    (hclean : ∀ i, i < k - 1 → (env i).invoke = .ok (rs i) ∧
      (rs i).exitCode = 0 ∧ (rs i).stderr = [] ∧
      (rs i).sessionId = some (ss i) ∧
      (env i).judge.result ≠ strL "done")
    (hexn : (env (k - 1)).invoke = .exn msg) :
    (executeTaskWithRetry env prompt retry).attempts = k ∧
    (executeTaskWithRetry env prompt retry).executions.length = k ∧
    (executeTaskWithRetry env prompt retry).errorMessage = some msg ∧
    (executeTaskWithRetry env prompt retry).finalStatus =
      (if retry ≤ k then strL "partial" else strL "error") ∧
    (runLoop env prompt retry initLoopState).1.sessionId =
      (if k = 1 then none else some (ss (k - 2))) := by
  have h0 : initLoopState.attempts = 0 := rfl
  have h0e : initLoopState.executions.length = 0 := rfl
  obtain ⟨st', hrun, ha, hexl, hzero, hlate⟩ :=
    runLoop_clean_prefix env prompt rs ss (k - 1) retry initLoopState
      (fun i hi1 hi2 => hclean i (by omega)) (Or.inl h0) (by omega)
  have hsid' : st'.attempts = 0 ∨ ∃ sid, st'.sessionId = some sid := by
    rcases Nat.eq_or_lt_of_le hk with hk1 | hk2
    · exact Or.inl (by omega)
    · exact Or.inr ⟨_, (hlate (by omega)).1⟩
  have hexn' : (env st'.attempts).invoke = .exn msg := by
    have hattk : st'.attempts = k - 1 := by omega
    rw [hattk]
    exact hexn
  obtain ⟨st'', hstep, ha'', hs'', hexl'', -, -⟩ :=
    loopStep_exn env prompt st' msg hexn' hsid'
  have hfuel : retry - (k - 1) = (retry - k) + 1 := by omega
  have hloop : runLoop env prompt (retry - (k - 1)) st' =
      (st'', .errored msg) := by
    rw [hfuel, runLoop, hstep]
  have hattf : st''.attempts = k := by omega
  unfold executeTaskWithRetry
  rw [hrun, hloop]
  refine ⟨by dsimp only [reportOf]; omega,
    by dsimp only [reportOf]; omega, rfl, ?_, ?_⟩
  · dsimp only [reportOf]
    rw [hattf]
  · rw [hs'']
    rcases Nat.eq_or_lt_of_le hk with hk1 | hk2
    · rw [if_pos hk1.symm, hzero (by omega)]
      rfl
    · rw [if_neg (by omega)]
      have := (hlate (by omega)).1
      rw [this]
      congr 2
      omega

/-- An environment whose every invocation fails at runtime: exit code 1 with
stderr "boom"; the judge (never reached) would say resume. -/
def envRuntimeError : Nat → AttemptEnv :=
  fun _ => ⟨.ok ⟨1, strL "out", strL "boom", 5, none⟩, ⟨strL "resume", []⟩⟩

/-- C3 at its failing input: retry = 1 and a non-zero exit on attempt 1.
The controller indeed performs exactly 1 attempt, records exactly 1 attempt
entry, never consults the judge, and sets an error message — but the final
status is "partial", not "error": on the errored break `needsContinue` is
still true, so the ceiling check of line 2802 overwrites the "error" status
whenever the runtime error strikes the final allowed attempt, while the
claim (and the spec's runtime-error short-circuit) require "error". -/
theorem claim_C3_runtime_error_final_attempt_bug :
    (executeTaskWithRetry envRuntimeError (strL "p") 1).attempts = 1 ∧
    (executeTaskWithRetry envRuntimeError (strL "p") 1).executions.length
      = 1 ∧
    (runLoop envRuntimeError (strL "p") 1 initLoopState).1.judgeCalls = [] ∧
    (executeTaskWithRetry envRuntimeError (strL "p") 1).errorMessage =
      some (runtimeErrorText ⟨1, strL "out", strL "boom", 5, none⟩) ∧
    (executeTaskWithRetry envRuntimeError (strL "p") 1).finalStatus =
      strL "partial" ∧
    (executeTaskWithRetry envRuntimeError (strL "p") 1).finalStatus ≠
      strL "error" :=
  ⟨rfl, rfl, rfl, rfl, rfl, by decide⟩

/-- An environment whose every invocation rejects with a timeout error. -/
def envTimeout : Nat → AttemptEnv :=
  fun _ => ⟨.exn (strL "执行超时(超过 1 分钟)"), ⟨strL "resume", []⟩⟩

/-- C5 counterexample: with retry = 3, the invocation of attempt 1 rejects
(timeout).  Retry budget remains (1 < 3), yet the controller does not
proceed to a next attempt: the run stops with exactly 1 attempt, exactly 1
ever-issued invocation, finalStatus "error" and the timeout message, and the
session id still unset — contradicting the claim that the controller
"proceeds to the next attempt if retry budget remains". -/
theorem claim_C5_counterexample :
    (executeTaskWithRetry envTimeout (strL "p") 3).attempts = 1 ∧
    (1 : Nat) < 3 ∧
    (executeTaskWithRetry envTimeout (strL "p") 3).finalStatus =
      strL "error" ∧
    (executeTaskWithRetry envTimeout (strL "p") 3).errorMessage =
      some (strL "执行超时(超过 1 分钟)") ∧
    (runLoop envTimeout (strL "p") 3 initLoopState).1.invocations.length
      = 1 ∧
    (runLoop envTimeout (strL "p") 3 initLoopState).1.sessionId = none :=
  ⟨rfl, by decide, rfl, rfl, rfl, rfl⟩

/-- Witness for the amended C5 at the concrete timeout environment, k = 1,
retry = 3. -/
theorem claim_C5_timeout_stops_task_amended_witness :
    (executeTaskWithRetry envTimeout (strL "p") 3).attempts = 1 ∧
    (executeTaskWithRetry envTimeout (strL "p") 3).executions.length = 1 ∧
    (executeTaskWithRetry envTimeout (strL "p") 3).errorMessage =
      some (strL "执行超时(超过 1 分钟)") ∧
    (executeTaskWithRetry envTimeout (strL "p") 3).finalStatus =
      (if (3 : Nat) ≤ 1 then strL "partial" else strL "error") ∧
    (runLoop envTimeout (strL "p") 3 initLoopState).1.sessionId =
      (if (1 : Nat) = 1 then none else some (strL "s")) :=
  claim_C5_timeout_stops_task_amended envTimeout (strL "p") 3 1
    (strL "执行超时(超过 1 分钟)")
    (fun _ => ⟨0, [], [], 0, none⟩) (fun _ => strL "s")
    (by omega) (by omega) (fun i hi => absurd hi (by omega)) rfl

/-- An environment of clean invocations with a judge that always answers
resume. -/
def envAlwaysResume : Nat → AttemptEnv :=
  fun _ => ⟨.ok ⟨0, strL "working", [], 5, some (strL "sess")⟩,
    ⟨strL "resume", [strL "未完成"]⟩⟩

/-- Witness for C2 at the concrete always-resume environment with
retry = 2. -/
theorem claim_C2_retry_ceiling_witness :
    (executeTaskWithRetry envAlwaysResume (strL "p") 2).attempts = 2 ∧
    (executeTaskWithRetry envAlwaysResume (strL "p") 2).executions.length
      = 2 ∧
    (executeTaskWithRetry envAlwaysResume (strL "p") 2).finalStatus =
      strL "partial" ∧
    (executeTaskWithRetry envAlwaysResume (strL "p") 2).success = false :=
  claim_C2_retry_ceiling envAlwaysResume (strL "p") 2
    (fun _ => ⟨0, strL "working", [], 5, some (strL "sess")⟩)
    (fun _ => strL "sess") (by omega)
    (fun i _ => ⟨rfl, rfl, rfl, rfl⟩) (fun i _ => Or.inl rfl)

/-- An environment of clean invocations with a judge that always answers
auto. -/
def envAutoJudge : Nat → AttemptEnv :=
  fun _ => ⟨.ok ⟨0, strL "working", [], 5, some (strL "sess")⟩,
    ⟨strL "auto", []⟩⟩

/-- Witness for C6: after an auto verdict on a clean attempt 1, attempt 2 is
a resume bound to the extracted session id carrying "按你的建议执行". -/
theorem claim_C6_resume_protocol_witness :
    (2, Invocation.resume (strL "sess")
        (if (envAutoJudge 0).judge.result = strL "auto" then
          strL "按你的建议执行" else strL "请继续")) ∈
      (runLoop envAutoJudge (strL "p") 2 initLoopState).1.invocations :=
  (claim_C6_resume_protocol envAutoJudge (strL "p") 2
    (fun _ => ⟨0, strL "working", [], 5, some (strL "sess")⟩)
    (fun _ => strL "sess")).2 2 (by omega) (by omega)
    (fun i _ => ⟨rfl, rfl, rfl, rfl,
      (show strL "auto" ≠ strL "done" by decide)⟩)

/-!
## Stream extractor: whole-stream state and end-of-stream delivery

The full per-event state of `pipeThroughAssistantFilter` (lines 1692-1699)
and the `end` handler (lines 2173-2181).
-/

/-- The extracted content of one decoded stream event: what
`extractUserText` and `extractAssistantText` find in the parsed JSON object,
prior to any filtering. -/
structure DecodedEvent where
  userText : Option Str
  assistantText : Option Str
deriving DecidableEq

/-- The per-invocation accumulator of `pipeThroughAssistantFilter` relevant
to the collected transcript (lines 1692-1699), plus a ghost trace of the
assistant fragments delivered to the terminal renderer. -/
structure FilterState where
  lastUserOutput : Str
  lastAssistantOutput : Str
  knownUserPrompts : List Str
  emitted : List Str
deriving DecidableEq

/-- The accumulator's initial state. -/
def initFilterState : FilterState := ⟨[], [], [], []⟩

/-- Adding to the `knownUserPrompts` `Set` (line 1765): insertion order,
duplicates ignored. -/
def addPrompt (prompts : List Str) (p : Str) : List Str :=
  if p ∈ prompts then prompts else prompts ++ [p]

/-- The user-text part of the `data` handler (lines 1762-1891): record the
trimmed user text among the known prompts and keep `lastUserOutput` on the
same cumulative-diff discipline as the assistant record. -/
def processUser (st : FilterState) (u : Option Str) : FilterState :=
  match u with
  | some u =>
    if u ≠ [] ∧ u ≠ strL "null" then
      { st with
        knownUserPrompts := addPrompt st.knownUserPrompts (jsTrim u)
        lastUserOutput :=
          if st.lastUserOutput.isPrefixOf u then
            if u.drop st.lastUserOutput.length ≠ [] then u
            else st.lastUserOutput
          else if u ≠ st.lastUserOutput then u
          else st.lastUserOutput }
    else st
  | none => st

/-- The assistant-text part of the `data` handler (lines 1893-2053): strip
the known user prompts (lines 1896-1910), re-check that something non-empty
remains (line 1912), then diff against `lastAssistantOutput`, emitting only
the new part. -/
def processAssistant (st : FilterState) (a : Option Str) : FilterState :=
  match a with
  | some a0 =>
    if a0 ≠ [] ∧ a0 ≠ strL "null" then
      let a1 := stripKnownPrompts st.knownUserPrompts a0
      if a1 ≠ [] ∧ a1 ≠ strL "null" then
        let step := assistantDiffStep st.lastAssistantOutput a1
        { st with
          lastAssistantOutput := step.2
          emitted := st.emitted ++ (if step.1 = [] then [] else [step.1]) }
      else st
    else st
  | none => st

/-- Processing one decoded event: the user part runs before the assistant
part within the same handler invocation. -/
def processEvent (st : FilterState) (ev : DecodedEvent) : FilterState :=
  processAssistant (processUser st ev.userText) ev.assistantText

/-- The accumulator after a whole stream of decoded events. -/
def runFilter (events : List DecodedEvent) : FilterState :=
  events.foldl processEvent initFilterState

/-- The `end` handler's text delivery (lines 2173-2176): the `onText`
callback is invoked with the recorded `lastAssistantOutput` exactly when it
is non-empty, and is not invoked otherwise. -/
def finishText (st : FilterState) : Option Str :=
  if st.lastAssistantOutput ≠ [] then some st.lastAssistantOutput else none

/-- The caller's collection in `runCursorAgentInitial` (lines 2413-2421):
`stdout` starts empty and is replaced by the callback's argument when the
callback fires. -/
def collectedStdout (st : FilterState) : Str :=
  match finishText st with
  | some t => t
  | none => []

/-- `processUser` never touches the assistant record or the emitted
fragments. -/
theorem processUser_preserves (st : FilterState) (u : Option Str) :
    (processUser st u).lastAssistantOutput = st.lastAssistantOutput ∧
    (processUser st u).emitted = st.emitted := by
  cases u with
  | none => exact ⟨rfl, rfl⟩
  | some u =>
    unfold processUser
    dsimp only []
    by_cases h : u ≠ [] ∧ u ≠ strL "null"
    · rw [if_pos h]
      exact ⟨rfl, rfl⟩
    · rw [if_neg h]
      exact ⟨rfl, rfl⟩

/-- An event without non-empty assistant text leaves the assistant record
untouched. -/
theorem processEvent_no_assistant (st : FilterState) (ev : DecodedEvent)
    (h : ev.assistantText = none ∨ ev.assistantText = some []) :
    (processEvent st ev).lastAssistantOutput = st.lastAssistantOutput := by
  unfold processEvent
  rcases h with h | h <;> rw [h]
  · exact (processUser_preserves st ev.userText).1
  · unfold processAssistant
    dsimp only []
    rw [if_neg (by simp)]
    exact (processUser_preserves st ev.userText).1

/-- Folding events without non-empty assistant text preserves the assistant
record. -/
theorem foldFilter_no_assistant :
    ∀ (events : List DecodedEvent) (st : FilterState),
      (∀ ev ∈ events, ev.assistantText = none ∨ ev.assistantText = some []) →
      (events.foldl processEvent st).lastAssistantOutput =
        st.lastAssistantOutput := by
  intro events
  induction events with
  | nil =>
    intro st _
    rfl
  | cons ev evs ih =>
    intro st hall
    rw [List.foldl_cons,
      ih (processEvent st ev) (fun e he => hall e (by simp [he]))]
    exact processEvent_no_assistant st ev (hall ev (by simp))

/-- C10.  On stream end the filter delivers to its text callback exactly the
last cumulative assistant text it recorded — not the concatenation of the
incrementally emitted fragments, which can differ (third conjunct) — and if
no non-empty assistant text was ever extracted during the stream, the
callback is never invoked and the caller's collected transcript stays the
empty string. -/
theorem claim_C10_stream_end_delivery :
    (∀ (events : List DecodedEvent) (t : Str),
      finishText (runFilter events) = some t →
      t = (runFilter events).lastAssistantOutput) ∧
    (∀ events : List DecodedEvent,
      (∀ ev ∈ events, ev.assistantText = none ∨ ev.assistantText = some []) →
      (runFilter events).lastAssistantOutput = [] ∧
      finishText (runFilter events) = none ∧
      collectedStdout (runFilter events) = []) ∧
    ((runFilter [⟨none, some (strL "ab")⟩, ⟨none, some (strL "b")⟩]).emitted.flatten
      ≠ (runFilter [⟨none, some (strL "ab")⟩,
          ⟨none, some (strL "b")⟩]).lastAssistantOutput ∧
      finishText (runFilter [⟨none, some (strL "ab")⟩,
          ⟨none, some (strL "b")⟩]) =
        some (runFilter [⟨none, some (strL "ab")⟩,
          ⟨none, some (strL "b")⟩]).lastAssistantOutput) := by
  refine ⟨?_, ?_, by decide, rfl⟩
  · intro events t h
    unfold finishText at h
    by_cases hne : (runFilter events).lastAssistantOutput ≠ []
    · rw [if_pos hne] at h
      exact (Option.some.inj h).symm
    · rw [if_neg hne] at h
      cases h
  · intro events hall
    have hlast : (runFilter events).lastAssistantOutput = [] :=
      foldFilter_no_assistant events initFilterState hall
    refine ⟨hlast, ?_, ?_⟩
    · unfold finishText
      rw [if_neg (by simp [hlast])]
    · unfold collectedStdout finishText
      rw [if_neg (by simp [hlast])]

/-- Witness for C10 at concrete streams: a single assistant event delivers
its text; a user-only stream never fires the callback. -/
theorem claim_C10_stream_end_delivery_witness :
    (strL "hi" = (runFilter [⟨none, some (strL "hi")⟩]).lastAssistantOutput) ∧
    ((runFilter [⟨some (strL "q"), none⟩]).lastAssistantOutput = [] ∧
      finishText (runFilter [⟨some (strL "q"), none⟩]) = none ∧
      collectedStdout (runFilter [⟨some (strL "q"), none⟩]) = []) :=
  ⟨claim_C10_stream_end_delivery.1 [⟨none, some (strL "hi")⟩] (strL "hi") rfl,
    claim_C10_stream_end_delivery.2.1 [⟨some (strL "q"), none⟩]
      (fun ev hev => by rw [List.mem_singleton.mp hev]; exact Or.inl rfl)⟩

end CursorFlow
